import Mathlib

/-!
Shallow embedding of the department queue scheduler of the stra-sys backend:
the queue mechanics of TriageService (performTriage, getPatientQueue,
prioritizeCriticalPatients, determineDepartment) and of QueueService
(getQueueStatus, callNextPatient, completePatient, skipPatient,
updatePatientPosition), together with the department load counter.

Timestamps are modelled as natural numbers supplied by the caller (the
source stamps new Date()); database rows become list elements; the SQL
ORDER BY clauses become insertion sorts over the corresponding keys; a
thrown AppError inside a db.transaction becomes an Except error (the
transaction rolls back, so the error case leaves the state unchanged).
-/

namespace StraSys

/-- The urgency_level enum: RED, YELLOW, GREEN. -/
inductive Urgency where
  | RED
  | YELLOW
  | GREEN
  deriving DecidableEq, Repr

/-- The numeric rank the SQL CASE expressions assign:
RED becomes 1, YELLOW becomes 2, anything else 3. -/
def urgencyRank : Urgency → Nat
  | Urgency.RED => 1
  | Urgency.YELLOW => 2
  | Urgency.GREEN => 3

/-- The queue_status enum of the schema. -/
inductive QueueStatus where
  | WAITING
  | IN_PROGRESS
  | COMPLETED
  | CANCELLED
  | SKIPPED
  deriving DecidableEq, Repr

/-- A row of the department_queues table (the fields the scheduler touches).
updatedAt is omitted: no claim concerns it. -/
structure QueueEntry where
  queueId : Nat
  departmentId : Nat
  patientId : Nat
  urgencyLevel : Urgency
  positionInQueue : Nat
  expectedWaitTime : Nat
  status : QueueStatus
  calledAt : Option Nat
  completedAt : Option Nat
  assignedDoctorId : Option Nat
  createdAt : Nat
  deriving DecidableEq, Repr

/-- A row of the departments table (the fields the scheduler touches). -/
structure Department where
  departmentId : Nat
  currentPatientLoad : Int
  averageTreatmentTime : Nat
  deriving DecidableEq, Repr

/-- The database state seen by the queue scheduler. -/
structure DBState where
  queues : List QueueEntry
  departments : List Department
  deriving DecidableEq, Repr

/-- Errors thrown as AppError by the services (plus the JS ReferenceError
raised by determineDepartment's pediatric branch). -/
inductive QueueError where
  | entryNotFound
  | emptyQueue
  | departmentNotFound
  | undefinedPatientReference
  deriving DecidableEq, Repr

/-- The WHERE departmentId = d AND status = WAITING filter. -/
def isWaitingIn (d : Nat) (e : QueueEntry) : Bool :=
  e.departmentId == d && e.status == QueueStatus.WAITING

/-- COUNT of WAITING rows of a department (the queueCount of performTriage). -/
def waitingCount (st : DBState) (d : Nat) : Nat :=
  (st.queues.filter (isWaitingIn d)).length

/-- ORDER BY urgency-rank CASE, then positionInQueue (the read ordering). -/
def readLe (a b : QueueEntry) : Prop :=
  urgencyRank a.urgencyLevel < urgencyRank b.urgencyLevel ∨
    (urgencyRank a.urgencyLevel = urgencyRank b.urgencyLevel ∧
      a.positionInQueue ≤ b.positionInQueue)

instance : DecidableRel readLe := fun a b => by
  unfold readLe; exact inferInstance

instance : IsTotal QueueEntry readLe :=
  ⟨by intro a b; unfold readLe; omega⟩

instance : IsTrans QueueEntry readLe :=
  ⟨by intro a b c; unfold readLe; omega⟩

/-- ORDER BY urgency-rank CASE, then createdAt (the canonical ordering of
prioritizeCriticalPatients). -/
def canonLe (a b : QueueEntry) : Prop :=
  urgencyRank a.urgencyLevel < urgencyRank b.urgencyLevel ∨
    (urgencyRank a.urgencyLevel = urgencyRank b.urgencyLevel ∧
      a.createdAt ≤ b.createdAt)

instance : DecidableRel canonLe := fun a b => by
  unfold canonLe; exact inferInstance

instance : IsTotal QueueEntry canonLe :=
  ⟨by intro a b; unfold canonLe; omega⟩

instance : IsTrans QueueEntry canonLe :=
  ⟨by intro a b c; unfold canonLe; omega⟩

/-- ORDER BY positionInQueue ASC (updatePatientPosition's read of the other
waiting entries). -/
def posLe (a b : QueueEntry) : Prop :=
  a.positionInQueue ≤ b.positionInQueue

instance : DecidableRel posLe := fun a b => by
  unfold posLe; exact inferInstance

instance : IsTotal QueueEntry posLe :=
  ⟨by intro a b; unfold posLe; omega⟩

instance : IsTrans QueueEntry posLe :=
  ⟨by intro a b c; unfold posLe; omega⟩

/-- TriageService.getPatientQueue: the WAITING entries of a department,
ordered by the urgency-rank CASE and then positionInQueue. -/
def getPatientQueue (st : DBState) (d : Nat) : List QueueEntry :=
  List.insertionSort readLe (st.queues.filter (isWaitingIn d))

/-- The patients list of QueueService.getQueueStatus: all entries of the
department (any status), ordered by the urgency-rank CASE and then
positionInQueue. -/
def getQueueStatusPatients (st : DBState) (d : Nat) : List QueueEntry :=
  List.insertionSort readLe (st.queues.filter (fun e => e.departmentId == d))

/-- The queue-depth argument performTriage hands to
TriageCalculator.estimateWaitTime: Number(queueCount.count), the total
WAITING count of the target department. -/
def triageEstimatorQueueDepth (st : DBState) (d : Nat) : Nat :=
  waitingCount st d

/-- Follows the spec's words, for comparison with the code (the spec's
currentWaitingCountAheadOrEqualPriority): the count of WAITING entries of
the department whose urgency is of higher or equal priority than the new
entry's, i.e. whose numeric rank is at most the new entry's numeric rank. -/
def specCountAheadOrEqualPriority (st : DBState) (d : Nat) (u : Urgency) : Nat :=
  (st.queues.filter (fun e =>
    isWaitingIn d e && decide (urgencyRank e.urgencyLevel ≤ urgencyRank u))).length

/-- The enqueue portion of TriageService.performTriage: looks up the target
department, computes queueCount = WAITING count of the department, inserts
the new entry at position queueCount + 1 with status WAITING, and
increments the department's currentPatientLoad, all in one transaction.
The MEWS score, urgency level and estimated wait minutes are computed
upstream by TriageCalculator; they enter here as the urgency and
estimatedWait arguments. No existing entry is touched and no duplicate
check of any kind is performed. -/
def performTriageEnqueue (st : DBState) (d p : Nat) (u : Urgency)
    (newQueueId estimatedWait now : Nat) :
    Except QueueError (QueueEntry × DBState) :=
  match st.departments.find? (fun dep => dep.departmentId == d) with
  | none => Except.error QueueError.departmentNotFound
  | some _ =>
    let entry : QueueEntry :=
      { queueId := newQueueId
        departmentId := d
        patientId := p
        urgencyLevel := u
        positionInQueue := waitingCount st d + 1
        expectedWaitTime := estimatedWait
        status := QueueStatus.WAITING
        calledAt := none
        completedAt := none
        assignedDoctorId := none
        createdAt := now }
    Except.ok (entry,
      { queues := st.queues ++ [entry]
        departments := st.departments.map (fun dep =>
          if dep.departmentId == d then
            { dep with currentPatientLoad := dep.currentPatientLoad + 1 }
          else dep) })

/-- SELECT ... WHERE status = WAITING ORDER BY rank, position LIMIT 1:
the head of the sorted WAITING list. -/
def selectNext (st : DBState) (d : Nat) : Option QueueEntry :=
  (getPatientQueue st d).head?

/-- The row update applied to the called entry. -/
def callUpdate (doctorId now : Nat) (e : QueueEntry) : QueueEntry :=
  { e with status := QueueStatus.IN_PROGRESS
           calledAt := some now
           assignedDoctorId := some doctorId }

/-- QueueService.callNextPatient: picks the WAITING entry of the department
that is smallest under (urgency rank, position), marks it IN_PROGRESS with
calledAt and assignedDoctorId, and decrements the department's
currentPatientLoad. The positions of the remaining WAITING entries are not
touched. Throws when no WAITING entry exists. -/
def callNextPatient (st : DBState) (d doctorId now : Nat) :
    Except QueueError (QueueEntry × DBState) :=
  match selectNext st d with
  | none => Except.error QueueError.emptyQueue
  | some np =>
    Except.ok (callUpdate doctorId now np,
      { queues := st.queues.map (fun e =>
          if e.queueId == np.queueId then callUpdate doctorId now e else e)
        departments := st.departments.map (fun dep =>
          if dep.departmentId == d then
            { dep with currentPatientLoad := dep.currentPatientLoad - 1 }
          else dep) })

/-- The state after callNextPatient; a thrown error rolls the transaction
back, leaving the state unchanged. -/
def callNextState (st : DBState) (d doctorId now : Nat) : DBState :=
  match callNextPatient st d doctorId now with
  | Except.ok r => r.2
  | Except.error _ => st

/-- SELECT ... WHERE queueId = qid LIMIT 1. -/
def findEntry (st : DBState) (qid : Nat) : Option QueueEntry :=
  st.queues.find? (fun e => e.queueId == qid)

/-- QueueService.completePatient: sets status COMPLETED and stamps
completedAt on the entry with the given id, whatever its current status;
there is no status guard, no position compaction and no load update.
Throws only when no entry has the id. -/
def completePatient (st : DBState) (qid now : Nat) :
    Except QueueError DBState :=
  match findEntry st qid with
  | none => Except.error QueueError.entryNotFound
  | some _ =>
    Except.ok { st with queues := st.queues.map (fun e =>
      if e.queueId == qid then
        { e with status := QueueStatus.COMPLETED, completedAt := some now }
      else e) }

/-- The state after completePatient, with transaction rollback on error. -/
def completeState (st : DBState) (qid now : Nat) : DBState :=
  match completePatient st qid now with
  | Except.ok s => s
  | Except.error _ => st

/-- QueueService.skipPatient: sets status SKIPPED on the entry with the
given id, whatever its current status; the remaining WAITING positions are
not renumbered. Throws only when no entry has the id. -/
def skipPatient (st : DBState) (qid : Nat) : Except QueueError DBState :=
  match findEntry st qid with
  | none => Except.error QueueError.entryNotFound
  | some _ =>
    Except.ok { st with queues := st.queues.map (fun e =>
      if e.queueId == qid then { e with status := QueueStatus.SKIPPED }
      else e) }

/-- The state after skipPatient, with transaction rollback on error. -/
def skipState (st : DBState) (qid : Nat) : DBState :=
  match skipPatient st qid with
  | Except.ok s => s
  | Except.error _ => st

/-- The position-adjustment loop of updatePatientPosition: walks the other
WAITING entries in position order with a running counter starting at 1;
when the counter hits newPosition the moved entry is emitted first; returns
the emitted (queueId, position) pairs and the final counter value. -/
def adjustPositions (qid newPos : Nat) :
    List QueueEntry → Nat → List (Nat × Nat) × Nat
  | [], curr => ([], curr)
  | w :: ws, curr =>
    if curr == newPos then
      let rest := adjustPositions qid newPos ws (curr + 2)
      ((qid, curr) :: (w.queueId, curr + 1) :: rest.1, rest.2)
    else
      let rest := adjustPositions qid newPos ws (curr + 1)
      ((w.queueId, curr) :: rest.1, rest.2)

/-- UPDATE department_queues SET positionInQueue = pos WHERE queueId = qid. -/
def setPosition (qs : List QueueEntry) (qid pos : Nat) : List QueueEntry :=
  qs.map (fun e => if e.queueId == qid then { e with positionInQueue := pos } else e)

/-- Apply a list of (queueId, position) updates in order. -/
def applyPositions (qs : List QueueEntry) (ps : List (Nat × Nat)) : List QueueEntry :=
  ps.foldl (fun acc p => setPosition acc p.1 p.2) qs

/-- QueueService.updatePatientPosition: reads the other WAITING entries of
the moved entry's department in position order, rebuilds the position
assignment with the moved entry inserted at newPosition (appending it at
newPosition itself when the counter never reached it), and applies the
updates. No range check is performed on newPosition. -/
def updatePatientPosition (st : DBState) (qid newPos : Nat) :
    Except QueueError DBState :=
  match findEntry st qid with
  | none => Except.error QueueError.entryNotFound
  | some entry =>
    let others := List.insertionSort posLe (st.queues.filter (fun e =>
      isWaitingIn entry.departmentId e && e.queueId != qid))
    let res := adjustPositions qid newPos others 1
    let ps := if res.2 ≤ newPos then res.1 ++ [(qid, newPos)] else res.1
    Except.ok { st with queues := applyPositions st.queues ps }

/-- The state after updatePatientPosition, with rollback on error. -/
def repositionState (st : DBState) (qid newPos : Nat) : DBState :=
  match updatePatientPosition st qid newPos with
  | Except.ok s => s
  | Except.error _ => st

/-- The (queueId, position) assignment prioritizeCriticalPatients writes:
the WAITING entries of the department sorted by urgency rank then
createdAt, numbered 1..N in that order. -/
def prioritizePairs (st : DBState) (d : Nat) : List (Nat × Nat) :=
  (List.insertionSort canonLe (st.queues.filter (isWaitingIn d))).enum.map
    (fun p => (p.2.queueId, p.1 + 1))

/-- TriageService.prioritizeCriticalPatients: recomputes the positions of
all WAITING entries of the department from scratch, in the canonical order
(urgency rank ascending, then createdAt ascending). -/
def prioritizeCriticalPatients (st : DBState) (d : Nat) : DBState :=
  { st with queues := applyPositions st.queues (prioritizePairs st d) }

/-- The symptom flags determineDepartment reads. -/
structure Symptoms where
  chest_pain : Bool := false
  head_trauma : Bool := false
  seizure : Bool := false
  stroke_symptoms : Bool := false
  abdominal_pain : Bool := false
  gastrointestinal_bleeding : Bool := false
  fever : Bool := false
  cough : Bool := false
  shortness_of_breath : Bool := false
  burn : Bool := false
  trauma : Bool := false
  pediatric : Bool := false
  deriving DecidableEq, Repr

/-- TriageService.determineDepartment. A missing oxygenSaturation makes the
JS comparison (undefined < 92) false. When symptoms.pediatric is truthy the
branch evaluates patient.age although no patient is in scope, raising a
ReferenceError, modelled as the undefinedPatientReference error. -/
def determineDepartment (s : Symptoms) (oxygenSaturation : Option Nat) :
    Except QueueError String :=
  if (match oxygenSaturation with
      | some v => decide (v < 92)
      | none => false) || s.chest_pain then
    Except.ok "Emergency/Cardiology"
  else if s.head_trauma || s.seizure || s.stroke_symptoms then
    Except.ok "Emergency/Neurology"
  else if s.abdominal_pain || s.gastrointestinal_bleeding then
    Except.ok "Emergency/Surgery"
  else if s.fever && (s.cough || s.shortness_of_breath) then
    Except.ok "Emergency/Infectious Diseases"
  else if s.burn || s.trauma then
    Except.ok "Emergency/Trauma"
  else if s.pediatric then
    Except.error QueueError.undefinedPatientReference
  else
    Except.ok "Emergency/General"

/-- The positionInQueue values of a department's WAITING entries. -/
def waitingPositions (st : DBState) (d : Nat) : List Nat :=
  (st.queues.filter (isWaitingIn d)).map (fun e => e.positionInQueue)

/-- Density: the WAITING positions of a department are a permutation of
1..N. -/
def densePositions (st : DBState) (d : Nat) : Prop :=
  (waitingPositions st d).Perm (List.range' 1 (waitingPositions st d).length)

instance (st : DBState) (d : Nat) : Decidable (densePositions st d) := by
  unfold densePositions; exact inferInstance

/-- The queueId column. -/
def queueIds (st : DBState) : List Nat :=
  st.queues.map (fun e => e.queueId)

/-- The currentPatientLoad of a department (0 when the department does not
exist, as no row would be read). -/
def loadOf (st : DBState) (d : Nat) : Int :=
  match st.departments.find? (fun dep => dep.departmentId == d) with
  | some dep => dep.currentPatientLoad
  | none => 0

/-- Entries the spec regards as active: WAITING or IN_PROGRESS. -/
def isActiveFor (d p : Nat) (e : QueueEntry) : Bool :=
  e.departmentId == d && e.patientId == p &&
    (e.status == QueueStatus.WAITING || e.status == QueueStatus.IN_PROGRESS)

/-- Number of active (WAITING or IN_PROGRESS) entries of a patient in a
department. -/
def activeCountFor (st : DBState) (d p : Nat) : Nat :=
  (st.queues.filter (isActiveFor d p)).length

/-- Number of active (WAITING or IN_PROGRESS) entries of a department. -/
def activeCount (st : DBState) (d : Nat) : Nat :=
  (st.queues.filter (fun e => e.departmentId == d &&
    (e.status == QueueStatus.WAITING || e.status == QueueStatus.IN_PROGRESS))).length

/-- States reachable by sequences of triage enqueues, call-next calls and
completions of entries that are not WAITING, starting from an empty queue
table and departments with zeroed load counters. Fresh queue ids model the
primary-key generation of the database. -/
inductive Reachable : DBState → Prop where
  | init (depts : List Department) :
      (∀ dep ∈ depts, dep.currentPatientLoad = 0) →
      Reachable { queues := [], departments := depts }
  | enqueue {st : DBState} {d p : Nat} {u : Urgency} {qid w now : Nat}
      {e : QueueEntry} {st' : DBState} :
      Reachable st → qid ∉ queueIds st →
      performTriageEnqueue st d p u qid w now = Except.ok (e, st') →
      Reachable st'
  | callNext {st : DBState} {d doc now : Nat} {e : QueueEntry} {st' : DBState} :
      Reachable st →
      callNextPatient st d doc now = Except.ok (e, st') →
      Reachable st'
  | complete {st : DBState} {qid now : Nat} {e : QueueEntry} {st' : DBState} :
      Reachable st → findEntry st qid = some e →
      e.status ≠ QueueStatus.WAITING →
      completePatient st qid now = Except.ok st' →
      Reachable st'

/-! Concrete states used by counterexamples and witnesses. -/

/-- A GREEN WAITING entry at position 1 of department 1. -/
def entryGreenOne : QueueEntry :=
  { queueId := 1
    departmentId := 1
    patientId := 10
    urgencyLevel := Urgency.GREEN
    positionInQueue := 1
    expectedWaitTime := 15
    status := QueueStatus.WAITING
    calledAt := none
    completedAt := none
    assignedDoctorId := none
    createdAt := 1 }

/-- A second GREEN WAITING entry at position 2 of department 1. -/
def entryGreenTwo : QueueEntry :=
  { entryGreenOne with queueId := 2, patientId := 11, positionInQueue := 2, createdAt := 2 }

/-- A RED WAITING entry at position 3 of department 1, created last. -/
def entryRedThree : QueueEntry :=
  { entryGreenOne with
    queueId := 3
    patientId := 12
    urgencyLevel := Urgency.RED
    positionInQueue := 3
    createdAt := 3 }

/-- Department 1 with a zero load counter. -/
def departmentOne : Department :=
  { departmentId := 1, currentPatientLoad := 0, averageTreatmentTime := 20 }

/-- Department 1 with an empty queue. -/
def stEmptyDept : DBState := { queues := [], departments := [departmentOne] }

/-- The entry a GREEN triage intake of patient 10 into the empty department
creates. -/
def entryGreenEnqueued : QueueEntry :=
  { queueId := 1
    departmentId := 1
    patientId := 10
    urgencyLevel := Urgency.GREEN
    positionInQueue := 1
    expectedWaitTime := 15
    status := QueueStatus.WAITING
    calledAt := none
    completedAt := none
    assignedDoctorId := none
    createdAt := 1 }

/-- The state after that intake: one WAITING entry, load counter 1. -/
def stAfterEnqueue : DBState :=
  { queues := [entryGreenEnqueued]
    departments := [{ departmentId := 1
                      currentPatientLoad := 1
                      averageTreatmentTime := 20 }] }

/-- The entry after doctor 7 calls it at time 5. -/
def entryGreenCalled : QueueEntry :=
  { entryGreenEnqueued with
    status := QueueStatus.IN_PROGRESS
    calledAt := some 5
    assignedDoctorId := some 7 }

/-- The state after the call: one IN_PROGRESS entry, load counter 0. -/
def stAfterCall : DBState :=
  { queues := [entryGreenCalled]
    departments := [{ departmentId := 1
                      currentPatientLoad := 0
                      averageTreatmentTime := 20 }] }

/-- Department 1 holding one WAITING GREEN entry at position 1. -/
def stOneGreen : DBState := { queues := [entryGreenOne], departments := [departmentOne] }

/-- Department 1 holding two WAITING GREEN entries at positions 1 and 2. -/
def stTwoGreen : DBState :=
  { queues := [entryGreenOne, entryGreenTwo], departments := [departmentOne] }

/-- Department 1 holding two GREEN entries and a later RED entry. -/
def stThreeMixed : DBState :=
  { queues := [entryGreenOne, entryGreenTwo, entryRedThree],
    departments := [departmentOne] }

/-! Machinery for reasoning about batched position updates. -/

/-- One position update, as seen by a single row. -/
def posStep (p : Nat × Nat) (a : QueueEntry) : QueueEntry :=
  if a.queueId == p.1 then { a with positionInQueue := p.2 } else a

/-- A batch of position updates, as seen by a single row. -/
def applyPairs (ps : List (Nat × Nat)) (e : QueueEntry) : QueueEntry :=
  ps.foldl (fun a p => posStep p a) e

/-- The three facts the load invariant carries: duplicate-free queue ids,
every entry's department present, and the load counter of every department
equal to its WAITING count. -/
def loadInvariant (st : DBState) : Prop :=
  (queueIds st).Nodup
  ∧ (∀ e ∈ st.queues, ∃ dep ∈ st.departments, dep.departmentId = e.departmentId)
  ∧ ∀ d, loadOf st d = (waitingCount st d : Int)

/-! Basic facts about the sort keys and the read operations. -/

theorem readLe_refl (a : QueueEntry) : readLe a a :=
  Or.inr ⟨rfl, Nat.le_refl _⟩

theorem readLe_rank_le {a b : QueueEntry} (h : readLe a b) :
    urgencyRank a.urgencyLevel ≤ urgencyRank b.urgencyLevel := by
  unfold readLe at h; omega

/-- C10: every department queue read (getQueueStatus patient list and
getPatientQueue) returns entries sorted by urgency rank first and stored
position second; consequently an entry of higher urgency appears before
every entry of lower urgency in the read output, for every stored state —
in particular for any state produced by a manual reposition. -/
theorem c10_reads_sorted_by_urgency_then_position (st : DBState) (d : Nat) :
    List.Sorted readLe (getPatientQueue st d)
    ∧ List.Sorted readLe (getQueueStatusPatients st d)
    ∧ (getPatientQueue st d).Pairwise
        (fun a b => urgencyRank a.urgencyLevel ≤ urgencyRank b.urgencyLevel)
    ∧ (getQueueStatusPatients st d).Pairwise
        (fun a b => urgencyRank a.urgencyLevel ≤ urgencyRank b.urgencyLevel) := by
  have h1 : List.Sorted readLe (getPatientQueue st d) :=
    List.sorted_insertionSort readLe _
  have h2 : List.Sorted readLe (getQueueStatusPatients st d) :=
    List.sorted_insertionSort readLe _
  exact ⟨h1, h2, h1.imp (fun h => readLe_rank_le h), h2.imp (fun h => readLe_rank_le h)⟩

/-- C8: the department routing function fails on pediatric inputs: with
symptoms.pediatric set (and no earlier branch taken) it dereferences the
undefined patient variable, while any symptom set that avoids that branch
routes successfully — the decision is not total as the spec requires. -/
theorem c8_pediatric_routing_reference_error :
    determineDepartment { pediatric := true } (some 95)
      = Except.error QueueError.undefinedPatientReference
    ∧ determineDepartment { } (some 95) = Except.ok "Emergency/General"
    ∧ determineDepartment { chest_pain := true, pediatric := true } (some 95)
      = Except.ok "Emergency/Cardiology" :=
  ⟨rfl, rfl, rfl⟩

/-- C1 counterexample: structural operations that do not restore density.
A skip does not renumber the remaining WAITING entries: from a dense
two-entry queue, skipping the entry at position 1 leaves the other entry
at position 2. A reposition renumbers the remaining entries but performs
no range check on the target position: moving an entry of the same dense
queue to position 5 yields the WAITING positions {5, 1}. In both cases the
positions are no longer a dense 1..N permutation after the operation. -/
theorem c1_skip_and_reposition_break_density :
    densePositions stTwoGreen 1
    ∧ skipPatient stTwoGreen 1 = Except.ok (skipState stTwoGreen 1)
    ∧ waitingPositions (skipState stTwoGreen 1) 1 = [2]
    ∧ ¬ densePositions (skipState stTwoGreen 1) 1
    ∧ waitingPositions (repositionState stTwoGreen 1 5) 1 = [5, 1]
    ∧ ¬ densePositions (repositionState stTwoGreen 1 5) 1 := by
  refine ⟨by decide, rfl, by decide, by decide, by decide, by decide⟩

/-- C2 counterexample: a RED intake into a department holding one WAITING
GREEN entry at position 1 is appended at position 2 (total WAITING count
plus one), not inserted at position 1, and the GREEN entry stays at
position 1 — the claimed urgency-band insertion and shifting do not
happen. -/
theorem c2_red_intake_appended_after_green :
    (match performTriageEnqueue stOneGreen 1 20 Urgency.RED 2 0 10 with
      | Except.ok r => r.1.positionInQueue
      | Except.error _ => 0) = 2
    ∧ (match performTriageEnqueue stOneGreen 1 20 Urgency.RED 2 0 10 with
      | Except.ok r => waitingPositions r.2 1
      | Except.error _ => []) = [1, 2] := by
  refine ⟨by decide, by decide⟩

/-- C3 counterexample: callNextPatient does not compact the positions of
the remaining WAITING entries. Calling on a dense queue of two GREEN
entries removes the entry at position 1 and leaves the remaining WAITING
entry at position 2 instead of renumbering it to 1. -/
theorem c3_call_next_does_not_compact :
    densePositions stTwoGreen 1
    ∧ waitingPositions (callNextState stTwoGreen 1 7 5) 1 = [2]
    ∧ ¬ densePositions (callNextState stTwoGreen 1 7 5) 1 := by
  refine ⟨by decide, by decide, by decide⟩

/-- C4 counterexample: enqueueing a second entry for patient 10 in
department 1, which already holds an active WAITING entry for patient 10,
succeeds instead of failing with DuplicateActiveEntryError, leaving two
active entries for the same patient in the same department. -/
theorem c4_duplicate_enqueue_succeeds :
    activeCountFor stOneGreen 1 10 = 1
    ∧ (performTriageEnqueue stOneGreen 1 10 Urgency.GREEN 2 15 5).isOk = true
    ∧ (match performTriageEnqueue stOneGreen 1 10 Urgency.GREEN 2 15 5 with
      | Except.ok r => activeCountFor r.2 1 10
      | Except.error _ => 0) = 2 := by
  refine ⟨by decide, by decide, by decide⟩

/-- C5 counterexample: completePatient applied to a WAITING entry succeeds
and marks it COMPLETED instead of failing with InvalidTransitionError and
leaving the status unchanged. -/
theorem c5_complete_waiting_entry_succeeds :
    entryGreenOne.status = QueueStatus.WAITING
    ∧ completePatient stTwoGreen 1 9 = Except.ok (completeState stTwoGreen 1 9)
    ∧ (completeState stTwoGreen 1 9).queues.map (fun e => e.status)
        = [QueueStatus.COMPLETED, QueueStatus.WAITING]
    ∧ (completeState stTwoGreen 1 9).queues.map (fun e => e.completedAt)
        = [some 9, none] := by
  refine ⟨rfl, rfl, by decide, by decide⟩

/-- C6 counterexample: after an enqueue followed by a call-next, the
department load counter is 0 while one entry is IN_PROGRESS, so the
counter does not equal the WAITING plus IN_PROGRESS count — callNextPatient
decrements it when the patient is called, not when treatment completes. -/
theorem c6_load_drops_at_call_next :
    (match performTriageEnqueue stEmptyDept 1 10 Urgency.GREEN 1 15 1 with
      | Except.ok r => loadOf (callNextState r.2 1 7 5) 1
      | Except.error _ => 99) = 0
    ∧ (match performTriageEnqueue stEmptyDept 1 10 Urgency.GREEN 1 15 1 with
      | Except.ok r => activeCount (callNextState r.2 1 7 5) 1
      | Except.error _ => 99) = 1 := by
  refine ⟨by decide, by decide⟩

/-- C9 counterexample: for a RED intake into a department whose only
WAITING entry is GREEN, the queue depth handed to the wait-time estimator
is the total WAITING count 1, while the spec's count of entries of
higher-or-equal priority is 0. -/
theorem c9_depth_is_total_count :
    triageEstimatorQueueDepth stOneGreen 1 = 1
    ∧ specCountAheadOrEqualPriority stOneGreen 1 Urgency.RED = 0 := by
  refine ⟨by decide, by decide⟩

/-! Helper lemmas for the amended claims. -/

theorem length_filter_and_le {α : Type} (l : List α) (p q : α → Bool) :
    (l.filter (fun a => p a && q a)).length ≤ (l.filter p).length := by
  induction l with
  | nil => simp
  | cons x xs ih =>
    simp only [List.filter_cons]
    by_cases hp : p x = true <;> by_cases hq : q x = true <;>
      simp [hp, hq, List.length_cons] <;> omega

theorem length_filter_and_eq_iff {α : Type} (l : List α) (p q : α → Bool) :
    (l.filter p).length = (l.filter (fun a => p a && q a)).length ↔
      ∀ a ∈ l, p a = true → q a = true := by
  induction l with
  | nil => simp
  | cons x xs ih =>
    have hle := length_filter_and_le xs p q
    cases hp : p x with
    | false =>
      rw [List.filter_cons, List.filter_cons, if_neg (by simp [hp]),
        if_neg (by simp [hp]), ih]
      simp only [List.forall_mem_cons]
      constructor
      · intro h; exact ⟨fun hc => absurd hc (by simp [hp]), h⟩
      · intro h; exact h.2
    | true =>
      cases hq : q x with
      | false =>
        rw [List.filter_cons, List.filter_cons, if_pos hp,
          if_neg (by simp [hp, hq])]
        simp only [List.length_cons, List.forall_mem_cons]
        constructor
        · intro h; omega
        · intro h; exact absurd (h.1 hp) (by simp [hq])
      | true =>
        rw [List.filter_cons, List.filter_cons, if_pos hp,
          if_pos (by simp [hp, hq])]
        simp only [List.length_cons, List.forall_mem_cons]
        constructor
        · intro h
          refine ⟨fun _ => hq, ih.1 ?_⟩
          omega
        · intro h
          have := ih.2 h.2
          omega

/-- The successful branch of performTriageEnqueue, characterized: the new
entry's fields and the fact that the queue list is only appended to. -/
theorem performTriageEnqueue_ok (st : DBState) (d p : Nat)
    (u : Urgency) (qid w now : Nat) (e : QueueEntry) (st' : DBState)
    (hok : performTriageEnqueue st d p u qid w now = Except.ok (e, st')) :
    e.positionInQueue = waitingCount st d + 1
    ∧ e.status = QueueStatus.WAITING
    ∧ e.urgencyLevel = u
    ∧ e.departmentId = d
    ∧ e.patientId = p
    ∧ st'.queues = st.queues ++ [e]
    ∧ st'.departments = st.departments.map (fun dep =>
        if dep.departmentId == d then
          { dep with currentPatientLoad := dep.currentPatientLoad + 1 }
        else dep)
    ∧ e.queueId = qid := by
  unfold performTriageEnqueue at hok
  cases hfind : st.departments.find? (fun dep => dep.departmentId == d) with
  | none => rw [hfind] at hok; cases hok
  | some dep0 =>
    rw [hfind] at hok
    simp only [Except.ok.injEq, Prod.mk.injEq] at hok
    obtain ⟨he, hst⟩ := hok
    subst he
    refine ⟨rfl, rfl, rfl, rfl, rfl, ?_, ?_, rfl⟩ <;> rw [← hst]

/-- C2 (amended): performTriage places every new entry at position
(total WAITING count of the department) + 1 and appends it, leaving every
existing entry — its position included — untouched; no urgency-band
insertion or shifting takes place. -/
theorem c2_enqueue_appends_at_total_count (st : DBState) (d p : Nat)
    (u : Urgency) (qid w now : Nat) (e : QueueEntry) (st' : DBState)
    (hok : performTriageEnqueue st d p u qid w now = Except.ok (e, st')) :
    e.positionInQueue = waitingCount st d + 1
    ∧ e.status = QueueStatus.WAITING
    ∧ e.urgencyLevel = u
    ∧ e.departmentId = d
    ∧ st'.queues = st.queues ++ [e] := by
  have h := performTriageEnqueue_ok st d p u qid w now e st' hok
  exact ⟨h.1, h.2.1, h.2.2.1, h.2.2.2.1, h.2.2.2.2.2.1⟩

/-- C2 witness: instantiates the amended enqueue theorem on the concrete
RED-after-GREEN scenario. -/
theorem c2_enqueue_appends_at_total_count_witness :
    (match performTriageEnqueue stOneGreen 1 20 Urgency.RED 2 0 10 with
      | Except.ok r => r.1.positionInQueue
      | Except.error _ => 0) = waitingCount stOneGreen 1 + 1 := by
  have h := c2_enqueue_appends_at_total_count stOneGreen 1 20 Urgency.RED 2 0 10
    { queueId := 2
      departmentId := 1
      patientId := 20
      urgencyLevel := Urgency.RED
      positionInQueue := 2
      expectedWaitTime := 0
      status := QueueStatus.WAITING
      calledAt := none
      completedAt := none
      assignedDoctorId := none
      createdAt := 10 }
    { queues := stOneGreen.queues ++
        [{ queueId := 2
           departmentId := 1
           patientId := 20
           urgencyLevel := Urgency.RED
           positionInQueue := 2
           expectedWaitTime := 0
           status := QueueStatus.WAITING
           calledAt := none
           completedAt := none
           assignedDoctorId := none
           createdAt := 10 }]
      departments := [{ departmentOne with currentPatientLoad := 1 }] }
    rfl
  exact h.1

/-- C4 (amended): performTriage performs no duplicate-active-entry check;
when the patient already has an active entry in the department, the second
enqueue succeeds, existing entries keep their positions (the queue list is
only appended to), and afterwards at least two active entries exist for
that patient in that department. -/
theorem c4_enqueue_allows_duplicate_active (st : DBState) (d p : Nat)
    (u : Urgency) (qid w now : Nat) (e : QueueEntry) (st' : DBState)
    (e0 : QueueEntry)
    (hok : performTriageEnqueue st d p u qid w now = Except.ok (e, st'))
    (he0 : e0 ∈ st.queues) (hact : isActiveFor d p e0 = true) :
    2 ≤ activeCountFor st' d p ∧ st'.queues = st.queues ++ [e] := by
  have h := performTriageEnqueue_ok st d p u qid w now e st' hok
  refine ⟨?_, h.2.2.2.2.2.1⟩
  have hmem : e0 ∈ st.queues.filter (isActiveFor d p) := List.mem_filter.2 ⟨he0, hact⟩
  have hpos : 0 < (st.queues.filter (isActiveFor d p)).length :=
    List.length_pos_of_mem hmem
  have hea : isActiveFor d p e = true := by
    unfold isActiveFor
    rw [h.2.1, h.2.2.2.1, h.2.2.2.2.1]
    simp
  unfold activeCountFor
  rw [h.2.2.2.2.2.1, List.filter_append, List.length_append]
  simp only [List.filter_cons, List.filter_nil, hea, if_true]
  simp only [List.length_cons, List.length_nil]
  omega

/-- C4 witness: instantiates the duplicate-enqueue theorem on the concrete
second intake of patient 10 into department 1. -/
theorem c4_enqueue_allows_duplicate_active_witness :
    2 ≤ (match performTriageEnqueue stOneGreen 1 10 Urgency.GREEN 2 15 5 with
      | Except.ok r => activeCountFor r.2 1 10
      | Except.error _ => 0) := by
  have h := c4_enqueue_allows_duplicate_active stOneGreen 1 10 Urgency.GREEN 2 15 5
    { queueId := 2
      departmentId := 1
      patientId := 10
      urgencyLevel := Urgency.GREEN
      positionInQueue := 2
      expectedWaitTime := 15
      status := QueueStatus.WAITING
      calledAt := none
      completedAt := none
      assignedDoctorId := none
      createdAt := 5 }
    { queues := stOneGreen.queues ++
        [{ queueId := 2
           departmentId := 1
           patientId := 10
           urgencyLevel := Urgency.GREEN
           positionInQueue := 2
           expectedWaitTime := 15
           status := QueueStatus.WAITING
           calledAt := none
           completedAt := none
           assignedDoctorId := none
           createdAt := 5 }]
      departments := [{ departmentOne with currentPatientLoad := 1 }] }
    entryGreenOne rfl (by decide) (by decide)
  exact h.1

/-- C9 (amended): the queue depth performTriage hands to the wait-time
estimator is the total WAITING count of the department; it dominates the
spec's higher-or-equal-priority count and coincides with it exactly when
no WAITING entry has strictly lower priority than the new intake. -/
theorem c9_depth_dominates_spec_count (st : DBState) (d : Nat) (u : Urgency) :
    specCountAheadOrEqualPriority st d u ≤ triageEstimatorQueueDepth st d
    ∧ (triageEstimatorQueueDepth st d = specCountAheadOrEqualPriority st d u ↔
        ∀ e ∈ st.queues, isWaitingIn d e = true →
          urgencyRank e.urgencyLevel ≤ urgencyRank u) := by
  constructor
  · exact length_filter_and_le st.queues (isWaitingIn d)
      (fun e => decide (urgencyRank e.urgencyLevel ≤ urgencyRank u))
  · have h := length_filter_and_eq_iff st.queues (isWaitingIn d)
      (fun e => decide (urgencyRank e.urgencyLevel ≤ urgencyRank u))
    unfold triageEstimatorQueueDepth waitingCount specCountAheadOrEqualPriority
    rw [h]
    constructor
    · intro hall e he hw; exact of_decide_eq_true (hall e he hw)
    · intro hall e he hw; exact decide_eq_true (hall e he hw)

/-- C9 witness: instantiates the depth-domination theorem on the concrete
one-GREEN department for a RED intake. -/
theorem c9_depth_dominates_spec_count_witness :
    specCountAheadOrEqualPriority stOneGreen 1 Urgency.RED ≤
      triageEstimatorQueueDepth stOneGreen 1 :=
  (c9_depth_dominates_spec_count stOneGreen 1 Urgency.RED).1

/-- C5 (amended): completePatient transitions any existing entry to
COMPLETED and stamps completedAt regardless of its current status — there
is no IN_PROGRESS guard and no InvalidTransitionError; the only failure is
entry-not-found. Entries with a different id are untouched. -/
theorem c5_complete_ignores_status (st : DBState) (qid now : Nat) :
    (findEntry st qid = none →
      completePatient st qid now = Except.error QueueError.entryNotFound)
    ∧ (∀ e0, findEntry st qid = some e0 →
        completePatient st qid now = Except.ok (completeState st qid now)
        ∧ (∀ x ∈ (completeState st qid now).queues, x.queueId = qid →
            x.status = QueueStatus.COMPLETED ∧ x.completedAt = some now)
        ∧ (∀ x ∈ st.queues, x.queueId ≠ qid →
            x ∈ (completeState st qid now).queues)) := by
  constructor
  · intro hnone
    unfold completePatient
    rw [hnone]
  · intro e0 hsome
    have hcp : completePatient st qid now = Except.ok
        { st with queues := st.queues.map (fun e =>
          if e.queueId == qid then
            { e with status := QueueStatus.COMPLETED, completedAt := some now }
          else e) } := by
      unfold completePatient; rw [hsome]
    have hcs : completeState st qid now =
        { st with queues := st.queues.map (fun e =>
          if e.queueId == qid then
            { e with status := QueueStatus.COMPLETED, completedAt := some now }
          else e) } := by
      unfold completeState; rw [hcp]
    refine ⟨by rw [hcp, hcs], ?_, ?_⟩
    · intro x hx hxq
      rw [hcs] at hx
      simp only [List.mem_map] at hx
      obtain ⟨x0, hx0, hmap⟩ := hx
      by_cases hb : (x0.queueId == qid) = true
      · rw [if_pos hb] at hmap
        rw [← hmap]
        exact ⟨rfl, rfl⟩
      · rw [if_neg hb] at hmap
        subst hmap
        exact absurd hxq (by simpa using hb)
    · intro x hx hne
      rw [hcs]
      simp only [List.mem_map]
      refine ⟨x, hx, ?_⟩
      rw [if_neg (by simpa using hne)]

/-- C5 witness: instantiates the complete theorem on the concrete WAITING
entry of id 1, showing the operation succeeds although the entry is not
IN_PROGRESS. -/
theorem c5_complete_ignores_status_witness :
    completePatient stTwoGreen 1 9 = Except.ok (completeState stTwoGreen 1 9)
    ∧ entryGreenTwo ∈ (completeState stTwoGreen 1 9).queues :=
  ⟨((c5_complete_ignores_status stTwoGreen 1 9).2 entryGreenOne rfl).1,
   ((c5_complete_ignores_status stTwoGreen 1 9).2 entryGreenOne rfl).2.2
     entryGreenTwo (by decide) (by decide)⟩

/-- C3 (amended): callNextPatient on a department with at least one WAITING
entry returns the WAITING entry smallest under (urgency rank, position),
stamps status IN_PROGRESS, calledAt and the assigned doctor on it, and
leaves every other entry — the remaining WAITING positions included —
untouched (no compaction); on an empty queue it fails with the empty-queue
error and, the transaction rolling back, leaves the state (the load
counter included) unchanged. -/
theorem c3_callnext_min_or_empty (st : DBState) (d doc now : Nat) :
    (st.queues.filter (isWaitingIn d) = [] →
      callNextPatient st d doc now = Except.error QueueError.emptyQueue
      ∧ callNextState st d doc now = st)
    ∧ (∀ np, selectNext st d = some np →
        np ∈ st.queues ∧ isWaitingIn d np = true
        ∧ (∀ x ∈ st.queues, isWaitingIn d x = true → readLe np x)
        ∧ callNextPatient st d doc now
            = Except.ok (callUpdate doc now np, callNextState st d doc now)
        ∧ (callUpdate doc now np).status = QueueStatus.IN_PROGRESS
        ∧ (callUpdate doc now np).calledAt = some now
        ∧ (callUpdate doc now np).assignedDoctorId = some doc
        ∧ (∀ x ∈ st.queues, x.queueId ≠ np.queueId →
            x ∈ (callNextState st d doc now).queues)) := by
  constructor
  · intro hnil
    have hsel : selectNext st d = none := by
      unfold selectNext getPatientQueue
      rw [hnil]
      rfl
    constructor
    · unfold callNextPatient; rw [hsel]
    · unfold callNextState callNextPatient; rw [hsel]
  · intro np hsel
    have hsorted : List.Sorted readLe (getPatientQueue st d) :=
      List.sorted_insertionSort readLe _
    obtain ⟨t, hq⟩ : ∃ t, getPatientQueue st d = np :: t := by
      cases hgpq : getPatientQueue st d with
      | nil =>
        unfold selectNext at hsel
        rw [hgpq] at hsel
        exact absurd hsel (by simp)
      | cons a t =>
        unfold selectNext at hsel
        rw [hgpq] at hsel
        simp only [List.head?_cons, Option.some.injEq] at hsel
        subst hsel
        exact ⟨t, rfl⟩
    have hnp_filter : np ∈ st.queues.filter (isWaitingIn d) := by
      have hmemq : np ∈ getPatientQueue st d := by
        rw [hq]; exact List.mem_cons_self _ _
      unfold getPatientQueue at hmemq
      exact (List.mem_insertionSort readLe).1 hmemq
    have hmem : np ∈ st.queues := (List.mem_filter.1 hnp_filter).1
    have hwait : isWaitingIn d np = true := (List.mem_filter.1 hnp_filter).2
    have hmin : ∀ x ∈ st.queues, isWaitingIn d x = true → readLe np x := by
      intro x hx hwx
      have hxs : x ∈ getPatientQueue st d := by
        unfold getPatientQueue
        exact (List.mem_insertionSort readLe).2 (List.mem_filter.2 ⟨hx, hwx⟩)
      rw [hq] at hxs
      rcases List.mem_cons.1 hxs with h1 | h2
      · rw [h1]; exact readLe_refl np
      · rw [hq] at hsorted
        exact List.rel_of_sorted_cons hsorted x h2
    have hcn : callNextPatient st d doc now = Except.ok (callUpdate doc now np,
        { queues := st.queues.map (fun e =>
            if e.queueId == np.queueId then callUpdate doc now e else e)
          departments := st.departments.map (fun dep =>
            if dep.departmentId == d then
              { dep with currentPatientLoad := dep.currentPatientLoad - 1 }
            else dep) }) := by
      unfold callNextPatient; rw [hsel]
    have hcs : callNextState st d doc now =
        { queues := st.queues.map (fun e =>
            if e.queueId == np.queueId then callUpdate doc now e else e)
          departments := st.departments.map (fun dep =>
            if dep.departmentId == d then
              { dep with currentPatientLoad := dep.currentPatientLoad - 1 }
            else dep) } := by
      unfold callNextState; rw [hcn]
    refine ⟨hmem, hwait, hmin, by rw [hcn, hcs], rfl, rfl, rfl, ?_⟩
    intro x hx hne
    rw [hcs]
    simp only [List.mem_map]
    refine ⟨x, hx, ?_⟩
    rw [if_neg (by simpa using hne)]

/-- C3 witness: instantiates the call-next theorem on the empty department
(error branch) and on the two-GREEN department (selection branch). -/
theorem c3_callnext_min_or_empty_witness :
    callNextPatient stEmptyDept 1 7 5 = Except.error QueueError.emptyQueue
    ∧ entryGreenOne ∈ stTwoGreen.queues
    ∧ isWaitingIn 1 entryGreenOne = true :=
  ⟨((c3_callnext_min_or_empty stEmptyDept 1 7 5).1 rfl).1,
   ((c3_callnext_min_or_empty stTwoGreen 1 7 5).2 entryGreenOne rfl).1,
   ((c3_callnext_min_or_empty stTwoGreen 1 7 5).2 entryGreenOne rfl).2.1⟩

theorem applyPairs_cons (p : Nat × Nat) (ps : List (Nat × Nat)) (e : QueueEntry) :
    applyPairs (p :: ps) e = applyPairs ps (posStep p e) := rfl

theorem posStep_queueId (p : Nat × Nat) (a : QueueEntry) :
    (posStep p a).queueId = a.queueId := by
  unfold posStep; split <;> rfl

theorem posStep_departmentId (p : Nat × Nat) (a : QueueEntry) :
    (posStep p a).departmentId = a.departmentId := by
  unfold posStep; split <;> rfl

theorem posStep_status (p : Nat × Nat) (a : QueueEntry) :
    (posStep p a).status = a.status := by
  unfold posStep; split <;> rfl

theorem posStep_urgencyLevel (p : Nat × Nat) (a : QueueEntry) :
    (posStep p a).urgencyLevel = a.urgencyLevel := by
  unfold posStep; split <;> rfl

theorem posStep_createdAt (p : Nat × Nat) (a : QueueEntry) :
    (posStep p a).createdAt = a.createdAt := by
  unfold posStep; split <;> rfl

theorem applyPairs_queueId (ps : List (Nat × Nat)) (e : QueueEntry) :
    (applyPairs ps e).queueId = e.queueId := by
  induction ps generalizing e with
  | nil => rfl
  | cons p ps ih => rw [applyPairs_cons, ih, posStep_queueId]

theorem applyPairs_departmentId (ps : List (Nat × Nat)) (e : QueueEntry) :
    (applyPairs ps e).departmentId = e.departmentId := by
  induction ps generalizing e with
  | nil => rfl
  | cons p ps ih => rw [applyPairs_cons, ih, posStep_departmentId]

theorem applyPairs_status (ps : List (Nat × Nat)) (e : QueueEntry) :
    (applyPairs ps e).status = e.status := by
  induction ps generalizing e with
  | nil => rfl
  | cons p ps ih => rw [applyPairs_cons, ih, posStep_status]

theorem applyPairs_urgencyLevel (ps : List (Nat × Nat)) (e : QueueEntry) :
    (applyPairs ps e).urgencyLevel = e.urgencyLevel := by
  induction ps generalizing e with
  | nil => rfl
  | cons p ps ih => rw [applyPairs_cons, ih, posStep_urgencyLevel]

theorem applyPairs_createdAt (ps : List (Nat × Nat)) (e : QueueEntry) :
    (applyPairs ps e).createdAt = e.createdAt := by
  induction ps generalizing e with
  | nil => rfl
  | cons p ps ih => rw [applyPairs_cons, ih, posStep_createdAt]

theorem setPosition_eq_map (qs : List QueueEntry) (qid pos : Nat) :
    setPosition qs qid pos = qs.map (posStep (qid, pos)) := rfl

/-- applyPositions is a per-row map of the accumulated pair updates. -/
theorem applyPositions_eq_map (ps : List (Nat × Nat)) (qs : List QueueEntry) :
    applyPositions qs ps = qs.map (applyPairs ps) := by
  induction ps generalizing qs with
  | nil => exact (List.map_id' qs).symm
  | cons p ps ih =>
    have h1 : applyPositions qs (p :: ps) =
        applyPositions (setPosition qs p.1 p.2) ps := rfl
    rw [h1, ih, setPosition_eq_map, List.map_map]
    rfl

/-- A row whose id never occurs in the batch is untouched. -/
theorem applyPairs_no_match (ps : List (Nat × Nat)) (e : QueueEntry)
    (h : ∀ q ∈ ps, e.queueId ≠ q.1) : applyPairs ps e = e := by
  induction ps generalizing e with
  | nil => rfl
  | cons p ps ih =>
    rw [applyPairs_cons]
    have hstep : posStep p e = e := by
      unfold posStep
      rw [if_neg (by simpa using h p (List.mem_cons_self p ps))]
    rw [hstep]
    exact ih e (fun q hq => h q (List.mem_cons_of_mem p hq))

/-- A pre-modified position is overwritten whenever some pair matches. -/
theorem applyPairs_set (ps : List (Nat × Nat)) (e : QueueEntry) (v : Nat) :
    applyPairs ps { e with positionInQueue := v }
      = if e.queueId ∈ ps.map Prod.fst then applyPairs ps e
        else { e with positionInQueue := v } := by
  induction ps generalizing e v with
  | nil => simp [applyPairs]
  | cons p ps ih =>
    rw [applyPairs_cons, applyPairs_cons]
    by_cases hm : e.queueId = p.1
    · have h1 : posStep p { e with positionInQueue := v }
          = { e with positionInQueue := p.2 } := by
        unfold posStep
        rw [if_pos (by simpa using hm)]
      have h2 : posStep p e = { e with positionInQueue := p.2 } := by
        unfold posStep
        rw [if_pos (by simpa using hm)]
      rw [h1, h2, if_pos (by simp [hm])]
    · have h1 : posStep p { e with positionInQueue := v }
          = { e with positionInQueue := v } := by
        unfold posStep
        rw [if_neg (by simpa using hm)]
      have h2 : posStep p e = e := by
        unfold posStep
        rw [if_neg (by simpa using hm)]
      rw [h1, h2, ih]
      simp only [List.map_cons]
      by_cases hin : e.queueId ∈ List.map Prod.fst ps
      · rw [if_pos hin, if_pos (List.mem_cons_of_mem p.1 hin)]
      · rw [if_neg hin, if_neg (by simp [List.mem_cons, hm, hin])]

/-- Replaying the same batch of position updates is the identity on a row
already carrying the batch's result. -/
theorem applyPairs_idem (ps : List (Nat × Nat)) (e : QueueEntry) :
    applyPairs ps (applyPairs ps e) = applyPairs ps e := by
  induction ps generalizing e with
  | nil => rfl
  | cons p ps ih =>
    rw [applyPairs_cons, applyPairs_cons]
    by_cases hm : e.queueId = p.1
    · have hstep : posStep p e = { e with positionInQueue := p.2 } := by
        unfold posStep
        rw [if_pos (by simpa using hm)]
      rw [hstep]
      have hEq : (applyPairs ps { e with positionInQueue := p.2 }).queueId = p.1 := by
        rw [applyPairs_queueId]; exact hm
      have hstep2 : posStep p (applyPairs ps { e with positionInQueue := p.2 })
          = { applyPairs ps { e with positionInQueue := p.2 } with
              positionInQueue := p.2 } := by
        unfold posStep
        rw [if_pos (by simpa using hEq)]
      rw [hstep2, applyPairs_set]
      by_cases hin : (applyPairs ps { e with positionInQueue := p.2 }).queueId
          ∈ ps.map Prod.fst
      · rw [if_pos hin]
        exact ih _
      · rw [if_neg hin]
        have hnm : applyPairs ps { e with positionInQueue := p.2 }
            = { e with positionInQueue := p.2 } := by
          refine applyPairs_no_match ps _ (fun q hq heq => hin ?_)
          rw [applyPairs_queueId]
          exact heq ▸ List.mem_map_of_mem Prod.fst hq
        rw [hnm]
    · have hstep : posStep p e = e := by
        unfold posStep
        rw [if_neg (by simpa using hm)]
      rw [hstep]
      have hq2 : (applyPairs ps e).queueId = e.queueId := applyPairs_queueId ps e
      have hstep2 : posStep p (applyPairs ps e) = applyPairs ps e := by
        unfold posStep
        rw [if_neg (by simp [hq2, hm])]
      rw [hstep2]
      exact ih e

/-- The ids of an enumerated batch are the ids of the underlying rows. -/
theorem enumFrom_map_pairs_fst :
    ∀ (t : List QueueEntry) (n : Nat),
      ((t.enumFrom n).map (fun q => (q.2.queueId, q.1 + 1))).map Prod.fst
        = t.map (fun e => e.queueId)
  | [], _ => rfl
  | a :: t, n => by
    simp only [List.enumFrom_cons, List.map_cons]
    rw [enumFrom_map_pairs_fst t (n + 1)]

/-- Applying the enumerated batch of a duplicate-free row list to its own
rows yields consecutive positions. -/
theorem applyPairs_enumFrom_positions :
    ∀ (l : List QueueEntry) (n : Nat),
      (l.map (fun e => e.queueId)).Nodup →
      l.map (fun e => (applyPairs ((l.enumFrom n).map
          (fun q => (q.2.queueId, q.1 + 1))) e).positionInQueue)
        = List.range' (n + 1) l.length
  | [], _, _ => rfl
  | a :: t, n, h => by
    rw [List.map_cons] at h
    have ha : a.queueId ∉ t.map (fun e => e.queueId) := (List.nodup_cons.1 h).1
    have ht : (t.map (fun e => e.queueId)).Nodup := (List.nodup_cons.1 h).2
    simp only [List.enumFrom_cons, List.map_cons, List.length_cons]
    rw [List.range'_succ]
    have hkeys : ((t.enumFrom (n + 1)).map
        (fun q => (q.2.queueId, q.1 + 1))).map Prod.fst
          = t.map (fun e => e.queueId) := enumFrom_map_pairs_fst t (n + 1)
    have hhead : (applyPairs ((a.queueId, n + 1) :: (t.enumFrom (n + 1)).map
        (fun q => (q.2.queueId, q.1 + 1))) a).positionInQueue = n + 1 := by
      rw [applyPairs_cons]
      have hstep : posStep (a.queueId, n + 1) a
          = { a with positionInQueue := n + 1 } := by
        unfold posStep
        rw [if_pos (by simp)]
      rw [hstep]
      have hnm : applyPairs ((t.enumFrom (n + 1)).map
          (fun q => (q.2.queueId, q.1 + 1))) { a with positionInQueue := n + 1 }
            = { a with positionInQueue := n + 1 } := by
        refine applyPairs_no_match _ _ (fun q hq heq => ha ?_)
        rw [← hkeys]
        exact heq ▸ List.mem_map_of_mem Prod.fst hq
      rw [hnm]
    have htail : t.map (fun e => (applyPairs ((a.queueId, n + 1) ::
        (t.enumFrom (n + 1)).map (fun q => (q.2.queueId, q.1 + 1))) e).positionInQueue)
          = List.range' (n + 2) t.length := by
      have hcongr : ∀ e ∈ t,
          (applyPairs ((a.queueId, n + 1) :: (t.enumFrom (n + 1)).map
            (fun q => (q.2.queueId, q.1 + 1))) e).positionInQueue
          = (applyPairs ((t.enumFrom (n + 1)).map
            (fun q => (q.2.queueId, q.1 + 1))) e).positionInQueue := by
        intro e he
        rw [applyPairs_cons]
        have hne : e.queueId ≠ a.queueId := by
          intro hc
          exact ha (hc ▸ List.mem_map_of_mem (fun x => x.queueId) he)
        have hstep : posStep (a.queueId, n + 1) e = e := by
          unfold posStep
          rw [if_neg (by simpa using hne)]
        rw [hstep]
      rw [List.map_congr_left hcongr]
      have := applyPairs_enumFrom_positions t (n + 1) ht
      simpa using this
    rw [hhead, htail]

theorem isWaitingIn_applyPairs (ps : List (Nat × Nat)) (d : Nat) (e : QueueEntry) :
    isWaitingIn d (applyPairs ps e) = isWaitingIn d e := by
  unfold isWaitingIn
  rw [applyPairs_departmentId, applyPairs_status]

theorem canonLe_applyPairs (ps : List (Nat × Nat)) (a b : QueueEntry) :
    canonLe (applyPairs ps a) (applyPairs ps b) ↔ canonLe a b := by
  unfold canonLe
  rw [applyPairs_urgencyLevel, applyPairs_urgencyLevel,
    applyPairs_createdAt, applyPairs_createdAt]

theorem filter_map_applyPairs (ps : List (Nat × Nat)) (d : Nat)
    (qs : List QueueEntry) :
    (qs.map (applyPairs ps)).filter (isWaitingIn d)
      = (qs.filter (isWaitingIn d)).map (applyPairs ps) := by
  rw [List.filter_map]
  congr 1
  exact List.filter_congr (fun e _ => isWaitingIn_applyPairs ps d e)

theorem insertionSort_map_applyPairs (ps : List (Nat × Nat))
    (l : List QueueEntry) :
    (l.insertionSort canonLe).map (applyPairs ps)
      = (l.map (applyPairs ps)).insertionSort canonLe :=
  List.map_insertionSort canonLe canonLe (applyPairs ps) l
    (fun a _ b _ => (canonLe_applyPairs ps a b).symm)

theorem enumFrom_map_applyPairs (ps : List (Nat × Nat)) :
    ∀ (l : List QueueEntry) (n : Nat),
      ((l.map (applyPairs ps)).enumFrom n).map (fun q => (q.2.queueId, q.1 + 1))
        = (l.enumFrom n).map (fun q => (q.2.queueId, q.1 + 1))
  | [], _ => rfl
  | a :: t, n => by
    simp only [List.map_cons, List.enumFrom_cons]
    rw [applyPairs_queueId, enumFrom_map_applyPairs ps t (n + 1)]

theorem prioritize_queues (st : DBState) (d : Nat) :
    prioritizeCriticalPatients st d
      = { queues := st.queues.map (applyPairs (prioritizePairs st d))
          departments := st.departments } := by
  unfold prioritizeCriticalPatients
  rw [applyPositions_eq_map]

/-- Re-running reprioritization computes the same pair assignment. -/
theorem prioritizePairs_after (st : DBState) (d : Nat) :
    prioritizePairs (prioritizeCriticalPatients st d) d = prioritizePairs st d := by
  unfold prioritizePairs
  rw [prioritize_queues st d]
  show ((((st.queues.map (applyPairs (prioritizePairs st d))).filter
    (isWaitingIn d)).insertionSort canonLe).enum).map _ = _
  rw [filter_map_applyPairs, ← insertionSort_map_applyPairs]
  exact enumFrom_map_applyPairs _ _ 0

/-- The id column of the canonically sorted WAITING list stays
duplicate-free when the whole table's id column is. -/
theorem nodup_sorted_waiting (st : DBState) (d : Nat)
    (h : (queueIds st).Nodup) :
    (((st.queues.filter (isWaitingIn d)).insertionSort canonLe).map
      (fun e => e.queueId)).Nodup := by
  have h1 : ((st.queues.filter (isWaitingIn d)).map (fun e => e.queueId)).Nodup := by
    refine List.Nodup.sublist (List.Sublist.map _ (List.filter_sublist _)) ?_
    exact h
  exact (((List.perm_insertionSort canonLe
    (st.queues.filter (isWaitingIn d))).map (fun e => e.queueId)).nodup_iff).2 h1

/-- C7: reprioritizeAll assigns positions 1..N to the department's WAITING
entries in the canonical order (urgency rank ascending, then enqueue
timestamp ascending) — reading the entries back in canonical order yields
exactly the positions 1..N — and it is idempotent: a second invocation
with no intervening mutation reproduces the state exactly. -/
theorem c7_prioritize_canonical_and_idempotent (st : DBState) (d : Nat)
    (h : (queueIds st).Nodup) :
    ((List.insertionSort canonLe
        ((prioritizeCriticalPatients st d).queues.filter (isWaitingIn d))).map
      (fun e => e.positionInQueue)) = List.range' 1 (waitingCount st d)
    ∧ prioritizeCriticalPatients (prioritizeCriticalPatients st d) d
        = prioritizeCriticalPatients st d := by
  constructor
  · rw [prioritize_queues st d]
    show ((((st.queues.map (applyPairs (prioritizePairs st d))).filter
      (isWaitingIn d)).insertionSort canonLe).map _) = _
    rw [filter_map_applyPairs, ← insertionSort_map_applyPairs, List.map_map]
    have hnodup := nodup_sorted_waiting st d h
    have hD := applyPairs_enumFrom_positions
      ((st.queues.filter (isWaitingIn d)).insertionSort canonLe) 0 hnodup
    have hlen : ((st.queues.filter (isWaitingIn d)).insertionSort canonLe).length
        = (st.queues.filter (isWaitingIn d)).length :=
      (List.perm_insertionSort canonLe _).length_eq
    rw [hlen] at hD
    exact hD
  · rw [prioritize_queues (prioritizeCriticalPatients st d) d,
      prioritizePairs_after, prioritize_queues st d]
    show DBState.mk _ _ = DBState.mk _ _
    congr 1
    rw [List.map_map]
    exact List.map_congr_left (fun e _ => applyPairs_idem _ e)

/-- C7 witness: instantiates the reprioritization theorem on the concrete
three-entry department. -/
theorem c7_prioritize_canonical_and_idempotent_witness :
    ((List.insertionSort canonLe
        ((prioritizeCriticalPatients stThreeMixed 1).queues.filter (isWaitingIn 1))).map
      (fun e => e.positionInQueue)) = List.range' 1 (waitingCount stThreeMixed 1)
    ∧ prioritizeCriticalPatients (prioritizeCriticalPatients stThreeMixed 1) 1
        = prioritizeCriticalPatients stThreeMixed 1 :=
  c7_prioritize_canonical_and_idempotent stThreeMixed 1 (by decide)

/-- C1 (amended): of the structural operations, reprioritizeAll
re-establishes the dense-1..N property of a department's WAITING positions
from any state with duplicate-free queue ids — dense or not — and enqueue
preserves it (the new entry is appended at position N+1); dequeue-next and
skip never renumber the remaining WAITING entries, and reposition renumbers
them without any range check on the target position, so none of those
three restores density (see the counterexample). -/
theorem c1_density_enqueue_and_reprioritize (st : DBState) (d : Nat)
    (hids : (queueIds st).Nodup) :
    densePositions (prioritizeCriticalPatients st d) d
    ∧ ∀ (p : Nat) (u : Urgency) (qid w now : Nat) (e : QueueEntry)
        (st' : DBState),
        performTriageEnqueue st d p u qid w now = Except.ok (e, st') →
        densePositions st d → densePositions st' d := by
  constructor
  · unfold densePositions
    have hwp : waitingPositions (prioritizeCriticalPatients st d) d
        = (st.queues.filter (isWaitingIn d)).map
            (fun x => (applyPairs (prioritizePairs st d) x).positionInQueue) := by
      unfold waitingPositions
      rw [prioritize_queues st d]
      show ((st.queues.map (applyPairs (prioritizePairs st d))).filter
        (isWaitingIn d)).map _ = _
      rw [filter_map_applyPairs, List.map_map]
      rfl
    rw [hwp]
    have hperm : ((st.queues.filter (isWaitingIn d)).map
        (fun x => (applyPairs (prioritizePairs st d) x).positionInQueue)).Perm
        (((st.queues.filter (isWaitingIn d)).insertionSort canonLe).map
          (fun x => (applyPairs (prioritizePairs st d) x).positionInQueue)) :=
      ((List.perm_insertionSort canonLe _).map _).symm
    have hD2 : ((st.queues.filter (isWaitingIn d)).insertionSort canonLe).map
        (fun x => (applyPairs (prioritizePairs st d) x).positionInQueue)
        = List.range' 1
            ((st.queues.filter (isWaitingIn d)).insertionSort canonLe).length :=
      applyPairs_enumFrom_positions
        ((st.queues.filter (isWaitingIn d)).insertionSort canonLe) 0
        (nodup_sorted_waiting st d hids)
    have hlen2 : ((st.queues.filter (isWaitingIn d)).insertionSort canonLe).length
        = (st.queues.filter (isWaitingIn d)).length :=
      (List.perm_insertionSort canonLe _).length_eq
    rw [List.length_map, ← hlen2, ← hD2]
    exact hperm
  · intro p u qid w now e st' hok hdense
    have h := performTriageEnqueue_ok st d p u qid w now e st' hok
    have hwp : waitingPositions st' d
        = waitingPositions st d ++ [waitingCount st d + 1] := by
      unfold waitingPositions
      rw [h.2.2.2.2.2.1, List.filter_append]
      have hfe : List.filter (isWaitingIn d) [e] = [e] := by
        have : isWaitingIn d e = true := by
          unfold isWaitingIn
          rw [h.2.1, h.2.2.2.1]
          simp
        simp [List.filter_cons, this]
      rw [hfe, List.map_append]
      simp [h.1]
    unfold densePositions at hdense ⊢
    rw [hwp]
    have hlen : (waitingPositions st d).length = waitingCount st d := by
      unfold waitingPositions waitingCount
      rw [List.length_map]
    rw [List.length_append]
    simp only [List.length_cons, List.length_nil, Nat.zero_add]
    have hconc : List.range' 1 ((waitingPositions st d).length + 1)
        = List.range' 1 (waitingPositions st d).length
            ++ [1 + 1 * (waitingPositions st d).length] := List.range'_concat 1 _
    rw [hconc]
    have harith : 1 + 1 * (waitingPositions st d).length = waitingCount st d + 1 := by
      rw [hlen]; omega
    rw [harith]
    exact hdense.append_right _

/-- C1 witness: instantiates the density theorem on the concrete one-GREEN
department with a RED intake. -/
theorem c1_density_enqueue_and_reprioritize_witness :
    densePositions (prioritizeCriticalPatients stOneGreen 1) 1
    ∧ densePositions
        { queues := stOneGreen.queues ++
            [{ queueId := 2
               departmentId := 1
               patientId := 20
               urgencyLevel := Urgency.RED
               positionInQueue := 2
               expectedWaitTime := 0
               status := QueueStatus.WAITING
               calledAt := none
               completedAt := none
               assignedDoctorId := none
               createdAt := 10 }]
          departments := [{ departmentOne with currentPatientLoad := 1 }] } 1 :=
  ⟨(c1_density_enqueue_and_reprioritize stOneGreen 1 (by decide)).1,
   (c1_density_enqueue_and_reprioritize stOneGreen 1 (by decide)).2
     20 Urgency.RED 2 0 10
     { queueId := 2
       departmentId := 1
       patientId := 20
       urgencyLevel := Urgency.RED
       positionInQueue := 2
       expectedWaitTime := 0
       status := QueueStatus.WAITING
       calledAt := none
       completedAt := none
       assignedDoctorId := none
       createdAt := 10 }
     { queues := stOneGreen.queues ++
         [{ queueId := 2
            departmentId := 1
            patientId := 20
            urgencyLevel := Urgency.RED
            positionInQueue := 2
            expectedWaitTime := 0
            status := QueueStatus.WAITING
            calledAt := none
            completedAt := none
            assignedDoctorId := none
            createdAt := 10 }]
       departments := [{ departmentOne with currentPatientLoad := 1 }] }
     rfl (by decide)⟩

/-! Machinery for the load-counter invariant. -/

theorem isWaitingIn_iff (d : Nat) (e : QueueEntry) :
    isWaitingIn d e = true ↔ e.departmentId = d ∧ e.status = QueueStatus.WAITING := by
  unfold isWaitingIn
  simp [Bool.and_eq_true, beq_iff_eq]

theorem find?_dept_cons_pos (a : Department) (l : List Department) (x : Nat)
    (h : (a.departmentId == x) = true) :
    (a :: l).find? (fun dep => dep.departmentId == x) = some a :=
  List.find?_cons_of_pos l h

theorem find?_dept_cons_neg (a : Department) (l : List Department) (x : Nat)
    (h : ¬ (a.departmentId == x) = true) :
    (a :: l).find? (fun dep => dep.departmentId == x)
      = l.find? (fun dep => dep.departmentId == x) :=
  List.find?_cons_of_neg l h

theorem find?_map_of_preserving (g : Department → Department)
    (hg : ∀ dep, (g dep).departmentId = dep.departmentId)
    (dl : List Department) (x : Nat) :
    (dl.map g).find? (fun dep => dep.departmentId == x)
      = (dl.find? (fun dep => dep.departmentId == x)).map g := by
  induction dl with
  | nil => rfl
  | cons a l ih =>
    simp only [List.map_cons]
    by_cases hp : (a.departmentId == x) = true
    · rw [find?_dept_cons_pos (g a) (l.map g) x (by rw [hg]; exact hp),
        find?_dept_cons_pos a l x hp]
      rfl
    · rw [find?_dept_cons_neg (g a) (l.map g) x (by rw [hg]; exact hp),
        find?_dept_cons_neg a l x hp, ih]

theorem exists_dept_map (dl : List Department) (g : Department → Department)
    (hg : ∀ dep, (g dep).departmentId = dep.departmentId) (x : Nat)
    (h : ∃ dep ∈ dl, dep.departmentId = x) :
    ∃ dep ∈ dl.map g, dep.departmentId = x := by
  obtain ⟨dep, hmem, hid⟩ := h
  exact ⟨g dep, List.mem_map_of_mem g hmem, by rw [hg]; exact hid⟩

theorem queueIds_map_preserving (qs : List QueueEntry)
    (f : QueueEntry → QueueEntry) (hf : ∀ e, (f e).queueId = e.queueId) :
    (qs.map f).map (fun e => e.queueId) = qs.map (fun e => e.queueId) := by
  rw [List.map_map]
  exact List.map_congr_left (fun e _ => hf e)

/-- A conditional row update with a duplicate-free id column touches exactly
the matching row. -/
theorem map_update_of_nodup (qs : List QueueEntry) (b : QueueEntry)
    (f : QueueEntry → QueueEntry) (hmem : b ∈ qs)
    (hids : (qs.map (fun e => e.queueId)).Nodup) :
    ∃ l1 l2, qs = l1 ++ b :: l2
      ∧ qs.map (fun e => if e.queueId == b.queueId then f e else e)
          = l1 ++ f b :: l2 := by
  obtain ⟨l1, l2, hsplit⟩ := List.append_of_mem hmem
  refine ⟨l1, l2, hsplit, ?_⟩
  subst hsplit
  have hmid : (b.queueId :: (l1 ++ l2).map (fun e => e.queueId)).Nodup := by
    have := hids
    rw [List.map_append, List.map_cons] at this
    simpa [List.nodup_middle] using this
  have hb1 : ∀ e ∈ l1, e.queueId ≠ b.queueId := by
    intro e he hc
    exact (List.nodup_cons.1 hmid).1 (by
      rw [← hc]
      exact List.mem_map_of_mem _ (List.mem_append_left l2 he))
  have hb2 : ∀ e ∈ l2, e.queueId ≠ b.queueId := by
    intro e he hc
    exact (List.nodup_cons.1 hmid).1 (by
      rw [← hc]
      exact List.mem_map_of_mem _ (List.mem_append_right l1 he))
  rw [List.map_append, List.map_cons, if_pos (by simp)]
  congr 1
  · calc l1.map (fun e => if e.queueId == b.queueId then f e else e)
        = l1.map (fun e => e) :=
          List.map_congr_left (fun e he => by rw [if_neg (by simpa using hb1 e he)])
      _ = l1 := List.map_id' l1
  · congr 1
    calc l2.map (fun e => if e.queueId == b.queueId then f e else e)
        = l2.map (fun e => e) :=
          List.map_congr_left (fun e he => by rw [if_neg (by simpa using hb2 e he)])
      _ = l2 := List.map_id' l2

theorem filter_length_middle (l1 l2 : List QueueEntry) (b : QueueEntry)
    (pr : QueueEntry → Bool) :
    ((l1 ++ b :: l2).filter pr).length
      = (l1.filter pr).length + (l2.filter pr).length
        + (if pr b = true then 1 else 0) := by
  simp only [List.filter_append, List.filter_cons, List.length_append]
  by_cases hb : pr b = true
  · rw [if_pos hb, if_pos hb]
    simp only [List.length_cons]
    omega
  · rw [if_neg (by simpa using hb), if_neg hb]
    omega

/-- A successful selectNext returns a WAITING member of the department that
is minimal under the read ordering. -/
theorem selectNext_some (st : DBState) (d : Nat) (np : QueueEntry)
    (hsel : selectNext st d = some np) :
    np ∈ st.queues ∧ isWaitingIn d np = true
    ∧ ∀ x ∈ st.queues, isWaitingIn d x = true → readLe np x := by
  have hsorted : List.Sorted readLe (getPatientQueue st d) :=
    List.sorted_insertionSort readLe _
  obtain ⟨t, hq⟩ : ∃ t, getPatientQueue st d = np :: t := by
    cases hgpq : getPatientQueue st d with
    | nil =>
      unfold selectNext at hsel
      rw [hgpq] at hsel
      exact absurd hsel (by simp)
    | cons a t =>
      unfold selectNext at hsel
      rw [hgpq] at hsel
      simp only [List.head?_cons, Option.some.injEq] at hsel
      subst hsel
      exact ⟨t, rfl⟩
  have hnp_filter : np ∈ st.queues.filter (isWaitingIn d) := by
    have hmemq : np ∈ getPatientQueue st d := by
      rw [hq]; exact List.mem_cons_self _ _
    unfold getPatientQueue at hmemq
    exact (List.mem_insertionSort readLe).1 hmemq
  refine ⟨(List.mem_filter.1 hnp_filter).1, (List.mem_filter.1 hnp_filter).2, ?_⟩
  intro x hx hwx
  have hxs : x ∈ getPatientQueue st d := by
    unfold getPatientQueue
    exact (List.mem_insertionSort readLe).2 (List.mem_filter.2 ⟨hx, hwx⟩)
  rw [hq] at hxs
  rcases List.mem_cons.1 hxs with h1 | h2
  · rw [h1]; exact readLe_refl np
  · rw [hq] at hsorted
    exact List.rel_of_sorted_cons hsorted x h2

theorem loadInvariant_init (depts : List Department)
    (hload : ∀ dep ∈ depts, dep.currentPatientLoad = 0) :
    loadInvariant { queues := [], departments := depts } := by
  refine ⟨by simp [queueIds], by simp, ?_⟩
  intro d
  unfold loadOf waitingCount
  cases hfind : depts.find? (fun dep => dep.departmentId == d) with
  | none => simp
  | some dep =>
    simp only [List.filter_nil, List.length_nil, Nat.cast_zero]
    exact hload dep (List.mem_of_find?_eq_some hfind)

theorem loadInvariant_enqueue (st : DBState) (d p : Nat) (u : Urgency)
    (qid w now : Nat) (e : QueueEntry) (st' : DBState)
    (hfresh : qid ∉ queueIds st)
    (hok : performTriageEnqueue st d p u qid w now = Except.ok (e, st'))
    (hinv : loadInvariant st) : loadInvariant st' := by
  obtain ⟨hids, hcover, hload⟩ := hinv
  have hfind : (st.departments.find? (fun dep => dep.departmentId == d)).isSome := by
    unfold performTriageEnqueue at hok
    cases hf : st.departments.find? (fun dep => dep.departmentId == d) with
    | none => rw [hf] at hok; cases hok
    | some dep0 => simp
  have hk := performTriageEnqueue_ok st d p u qid w now e st' hok
  have hg : ∀ dep : Department,
      ((if dep.departmentId == d then
        { dep with currentPatientLoad := dep.currentPatientLoad + 1 }
      else dep) : Department).departmentId = dep.departmentId := by
    intro dep; split <;> rfl
  have hwc : ∀ d', waitingCount st' d'
      = waitingCount st d' + (if d = d' then 1 else 0) := by
    intro d'
    unfold waitingCount
    rw [hk.2.2.2.2.2.1, List.filter_append, List.length_append]
    by_cases hd : d = d'
    · rw [if_pos hd]
      have he : isWaitingIn d' e = true :=
        (isWaitingIn_iff d' e).2 ⟨by rw [hk.2.2.2.1, hd], hk.2.1⟩
      simp [List.filter_cons, he]
    · rw [if_neg hd]
      have he : ¬ isWaitingIn d' e = true := by
        rw [isWaitingIn_iff]
        intro hc
        exact hd (by rw [← hk.2.2.2.1, hc.1])
      simp [List.filter_cons, he]
  refine ⟨?_, ?_, ?_⟩
  · unfold queueIds
    rw [hk.2.2.2.2.2.1, List.map_append, List.nodup_append]
    refine ⟨hids, by simp, ?_⟩
    intro a ha hb
    simp only [List.map_cons, List.map_nil, List.mem_singleton] at hb
    rw [hk.2.2.2.2.2.2.2] at hb
    subst hb
    exact hfresh ha
  · intro x hx
    rw [hk.2.2.2.2.2.1] at hx
    rw [hk.2.2.2.2.2.2.1]
    rcases List.mem_append.1 hx with h1 | h2
    · exact exists_dept_map _ _ hg _ (hcover x h1)
    · simp only [List.mem_singleton] at h2
      subst h2
      rw [hk.2.2.2.1]
      apply exists_dept_map _ _ hg d
      obtain ⟨dep0, hdep0⟩ := Option.isSome_iff_exists.1 hfind
      exact ⟨dep0, List.mem_of_find?_eq_some hdep0,
        by simpa using List.find?_some hdep0⟩
  · intro d'
    have hfind' : st'.departments.find? (fun x => x.departmentId == d')
        = (st.departments.find? (fun x => x.departmentId == d')).map
            (fun dep => if dep.departmentId == d then
              { dep with currentPatientLoad := dep.currentPatientLoad + 1 }
            else dep) := by
      rw [hk.2.2.2.2.2.2.1]
      exact find?_map_of_preserving _ hg _ _
    cases hf2 : st.departments.find? (fun x => x.departmentId == d') with
    | none =>
      have hz : loadOf st' d' = 0 := by
        unfold loadOf
        rw [hfind', hf2]
        rfl
      have hz0 : loadOf st d' = 0 := by
        unfold loadOf
        rw [hf2]
      have hload' := hload d'
      rw [hz0] at hload'
      have hdd : d ≠ d' := by
        intro hc
        subst hc
        rw [hf2] at hfind
        simp at hfind
      rw [hz, hwc d', if_neg hdd]
      omega
    | some dep =>
      have hdep_id : dep.departmentId = d' := by simpa using List.find?_some hf2
      have hload' := hload d'
      have hval : loadOf st d' = dep.currentPatientLoad := by
        unfold loadOf
        rw [hf2]
      rw [hval] at hload'
      by_cases hd : d = d'
      · have hcond : (dep.departmentId == d) = true := by simp [hdep_id, hd]
        have hsome : loadOf st' d' = dep.currentPatientLoad + 1 := by
          unfold loadOf
          rw [hfind', hf2]
          simp only [Option.map_some']
          show ((if dep.departmentId == d then
            { dep with currentPatientLoad := dep.currentPatientLoad + 1 }
          else dep) : Department).currentPatientLoad = _
          rw [if_pos hcond]
        rw [hsome, hwc d', if_pos hd]
        omega
      · have hcond : ¬ (dep.departmentId == d) = true := by
          simp only [beq_iff_eq, hdep_id]
          exact fun hx => hd hx.symm
        have hsome : loadOf st' d' = dep.currentPatientLoad := by
          unfold loadOf
          rw [hfind', hf2]
          simp only [Option.map_some']
          show ((if dep.departmentId == d then
            { dep with currentPatientLoad := dep.currentPatientLoad + 1 }
          else dep) : Department).currentPatientLoad = _
          rw [if_neg hcond]
        rw [hsome, hwc d', if_neg hd]
        omega

theorem loadInvariant_callNext (st : DBState) (d doc now : Nat)
    (e : QueueEntry) (st' : DBState)
    (hok : callNextPatient st d doc now = Except.ok (e, st'))
    (hinv : loadInvariant st) : loadInvariant st' := by
  obtain ⟨hids, hcover, hload⟩ := hinv
  unfold callNextPatient at hok
  cases hsel : selectNext st d with
  | none => rw [hsel] at hok; cases hok
  | some np =>
    rw [hsel] at hok
    simp only [Except.ok.injEq, Prod.mk.injEq] at hok
    obtain ⟨-, hst⟩ := hok
    obtain ⟨hmem, hwait, -⟩ := selectNext_some st d np hsel
    have hnp := (isWaitingIn_iff d np).1 hwait
    obtain ⟨l1, l2, hsplit, hmap⟩ :=
      map_update_of_nodup st.queues np (callUpdate doc now) hmem hids
    have hq' : st'.queues = l1 ++ callUpdate doc now np :: l2 := by
      rw [← hst]
      exact hmap
    have hd' : st'.departments = st.departments.map (fun dep =>
        if dep.departmentId == d then
          { dep with currentPatientLoad := dep.currentPatientLoad - 1 }
        else dep) := by
      rw [← hst]
    have hg : ∀ dep : Department,
        ((if dep.departmentId == d then
          { dep with currentPatientLoad := dep.currentPatientLoad - 1 }
        else dep) : Department).departmentId = dep.departmentId := by
      intro dep; split <;> rfl
    have hids_split : (st.queues.map (fun x => x.queueId)).Nodup := hids
    have hwc : ∀ d', waitingCount st d'
        = waitingCount st' d' + (if d = d' then 1 else 0) := by
      intro d'
      unfold waitingCount
      rw [hq', hsplit, filter_length_middle, filter_length_middle]
      have hcu : ¬ isWaitingIn d' (callUpdate doc now np) = true := by
        rw [isWaitingIn_iff]
        rintro ⟨-, hs⟩
        exact QueueStatus.noConfusion hs
      rw [if_neg hcu]
      by_cases hd : d = d'
      · have : isWaitingIn d' np = true :=
          (isWaitingIn_iff d' np).2 ⟨by rw [hnp.1, hd], hnp.2⟩
        rw [if_pos this, if_pos hd]
      · have : ¬ isWaitingIn d' np = true := by
          rw [isWaitingIn_iff]
          rintro ⟨hc, -⟩
          exact hd (by rw [← hnp.1, hc])
        rw [if_neg this, if_neg hd]
    refine ⟨?_, ?_, ?_⟩
    · unfold queueIds
      have hqmap : st'.queues = st.queues.map (fun x =>
          if x.queueId == np.queueId then callUpdate doc now x else x) := by
        rw [← hst]
      rw [hqmap, queueIds_map_preserving _ _ (fun x => by
        unfold callUpdate; split <;> rfl)]
      exact hids
    · intro x hx
      rw [hq'] at hx
      rw [hd']
      rcases List.mem_append.1 hx with h1 | h2
      · refine exists_dept_map _ _ hg _ (hcover x ?_)
        rw [hsplit]
        exact List.mem_append_left _ h1
      · rcases List.mem_cons.1 h2 with h3 | h4
        · subst h3
          have : (callUpdate doc now np).departmentId = np.departmentId := rfl
          rw [this]
          exact exists_dept_map _ _ hg _ (hcover np hmem)
        · refine exists_dept_map _ _ hg _ (hcover x ?_)
          rw [hsplit]
          exact List.mem_append_right _ (List.mem_cons_of_mem np h4)
    · intro d'
      have hfind' : st'.departments.find? (fun x => x.departmentId == d')
          = (st.departments.find? (fun x => x.departmentId == d')).map
              (fun dep => if dep.departmentId == d then
                { dep with currentPatientLoad := dep.currentPatientLoad - 1 }
              else dep) := by
        rw [hd']
        exact find?_map_of_preserving _ hg _ _
      cases hf2 : st.departments.find? (fun x => x.departmentId == d') with
      | none =>
        have hz : loadOf st' d' = 0 := by
          unfold loadOf
          rw [hfind', hf2]
          rfl
        have hz0 : loadOf st d' = 0 := by
          unfold loadOf
          rw [hf2]
        have hload' := hload d'
        rw [hz0] at hload'
        have hdd : d ≠ d' := by
          intro hc
          subst hc
          obtain ⟨dep0, hdep0mem, hdep0id⟩ := hcover np hmem
          have : (st.departments.find?
              (fun x => x.departmentId == d)).isSome := by
            rw [List.find?_isSome]
            exact ⟨dep0, hdep0mem, by simp [hdep0id, hnp.1]⟩
          rw [hf2] at this
          simp at this
        rw [hz, hwc d', if_neg hdd] at *
        omega
      | some dep =>
        have hdep_id : dep.departmentId = d' := by simpa using List.find?_some hf2
        have hload' := hload d'
        have hval : loadOf st d' = dep.currentPatientLoad := by
          unfold loadOf
          rw [hf2]
        rw [hval] at hload'
        by_cases hd : d = d'
        · have hcond : (dep.departmentId == d) = true := by simp [hdep_id, hd]
          have hsome : loadOf st' d' = dep.currentPatientLoad - 1 := by
            unfold loadOf
            rw [hfind', hf2]
            simp only [Option.map_some']
            show ((if dep.departmentId == d then
              { dep with currentPatientLoad := dep.currentPatientLoad - 1 }
            else dep) : Department).currentPatientLoad = _
            rw [if_pos hcond]
          have hwcd := hwc d'
          rw [if_pos hd] at hwcd
          rw [hsome]
          omega
        · have hcond : ¬ (dep.departmentId == d) = true := by
            simp only [beq_iff_eq, hdep_id]
            exact fun hx => hd hx.symm
          have hsome : loadOf st' d' = dep.currentPatientLoad := by
            unfold loadOf
            rw [hfind', hf2]
            simp only [Option.map_some']
            show ((if dep.departmentId == d then
              { dep with currentPatientLoad := dep.currentPatientLoad - 1 }
            else dep) : Department).currentPatientLoad = _
            rw [if_neg hcond]
          have hwcd := hwc d'
          rw [if_neg hd] at hwcd
          rw [hsome]
          omega

theorem loadInvariant_complete (st : DBState) (qid now : Nat)
    (e0 : QueueEntry) (st' : DBState)
    (hfind : findEntry st qid = some e0)
    (hstatus : e0.status ≠ QueueStatus.WAITING)
    (hok : completePatient st qid now = Except.ok st')
    (hinv : loadInvariant st) : loadInvariant st' := by
  obtain ⟨hids, hcover, hload⟩ := hinv
  have hmem : e0 ∈ st.queues := List.mem_of_find?_eq_some hfind
  have hqid : e0.queueId = qid := by
    simpa using List.find?_some hfind
  unfold completePatient at hok
  rw [hfind] at hok
  simp only [Except.ok.injEq] at hok
  obtain ⟨l1, l2, hsplit, hmap⟩ := map_update_of_nodup st.queues e0
    (fun x => { x with status := QueueStatus.COMPLETED, completedAt := some now })
    hmem hids
  have hq' : st'.queues = l1 ++
      { e0 with status := QueueStatus.COMPLETED, completedAt := some now } :: l2 := by
    rw [← hok]
    show st.queues.map _ = _
    rw [← hmap]
    exact List.map_congr_left (fun x _ => by rw [hqid])
  have hd' : st'.departments = st.departments := by
    rw [← hok]
  refine ⟨?_, ?_, ?_⟩
  · unfold queueIds
    have hqmap : st'.queues = st.queues.map (fun x =>
        if x.queueId == qid then
          { x with status := QueueStatus.COMPLETED, completedAt := some now }
        else x) := by
      rw [← hok]
    rw [hqmap, queueIds_map_preserving _ _ (fun x => by split <;> rfl)]
    exact hids
  · intro x hx
    rw [hq'] at hx
    rw [hd']
    rcases List.mem_append.1 hx with h1 | h2
    · refine hcover x ?_
      rw [hsplit]
      exact List.mem_append_left _ h1
    · rcases List.mem_cons.1 h2 with h3 | h4
      · subst h3
        exact hcover e0 hmem
      · refine hcover x ?_
        rw [hsplit]
        exact List.mem_append_right _ (List.mem_cons_of_mem e0 h4)
  · intro d'
    have hwc : waitingCount st' d' = waitingCount st d' := by
      unfold waitingCount
      rw [hq', hsplit, filter_length_middle, filter_length_middle]
      have h1 : ¬ isWaitingIn d'
          { e0 with status := QueueStatus.COMPLETED, completedAt := some now }
            = true := by
        rw [isWaitingIn_iff]
        rintro ⟨-, hs⟩
        exact QueueStatus.noConfusion hs
      have h2 : ¬ isWaitingIn d' e0 = true := by
        rw [isWaitingIn_iff]
        rintro ⟨-, hs⟩
        exact hstatus hs
      rw [if_neg h1, if_neg h2]
    have hlo : loadOf st' d' = loadOf st d' := by
      unfold loadOf
      rw [hd']
    rw [hwc, hlo]
    exact hload d'

/-- Every state reachable by triage enqueues, call-next calls, and
completions of non-WAITING entries satisfies the load invariant. -/
theorem reachable_loadInvariant (st : DBState) (h : Reachable st) :
    loadInvariant st := by
  induction h with
  | init depts hload => exact loadInvariant_init depts hload
  | enqueue hst hfresh hok ih =>
    exact loadInvariant_enqueue _ _ _ _ _ _ _ _ _ hfresh hok ih
  | callNext hst hok ih =>
    exact loadInvariant_callNext _ _ _ _ _ _ hok ih
  | complete hst hfind hstatus hok ih =>
    exact loadInvariant_complete _ _ _ _ _ hfind hstatus hok ih

/-- C6 (amended): for every state reachable by sequences of enqueue,
call-next, and complete-of-a-non-WAITING-entry operations, every
department's currentPatientLoad equals the number of its WAITING entries —
not the number of WAITING plus IN_PROGRESS entries: the counter is
decremented when a patient is called, and complete does not touch it. -/
theorem c6_load_equals_waiting_count (st : DBState) (h : Reachable st)
    (d : Nat) : loadOf st d = (waitingCount st d : Int) :=
  (reachable_loadInvariant st h).2.2 d

/-- C6 witness: instantiates the load theorem on the concrete reachable
state built by one enqueue followed by one call-next. -/
theorem c6_load_equals_waiting_count_witness :
    loadOf stAfterCall 1 = (waitingCount stAfterCall 1 : Int) :=
  c6_load_equals_waiting_count stAfterCall
    (@Reachable.callNext stAfterEnqueue 1 7 5 entryGreenCalled stAfterCall
      (@Reachable.enqueue stEmptyDept 1 10 Urgency.GREEN 1 15 1
        entryGreenEnqueued stAfterEnqueue
        (Reachable.init [departmentOne] (by decide)) (by decide) rfl)
      rfl) 1

end StraSys
